import Mathlib

/-
Verification of the hot/cold zone heatmap core of the NBA shot-visualization
repository.  The pipeline of `src/nba_shotviz/src/heatmap.py` (zone tables,
merge, diff grid, boundary tracer) and the entry point of
`src/nba_shotviz/src/viz_3d.py` are embedded shallowly over exact rationals.
Host floating-point values are modelled by `Option ℚ`, with `none` standing
for NaN; machine-float rounding is immaterial to the properties below, which
concern the exact arithmetic the code performs.

The modules `zone_classify.py`, `zone_tables.py`, `court_geometry.py` and
`shots.py` are imported by the sources but are not part of the verified tree;
their contributions are either abstracted as parameters (the two zone
classifiers, the arc renderer) or modelled from the specification (the court
constants), as noted on each definition.
-/

namespace NbaShotViz

/-- Floating-point value as the host computes with: `none` models NaN and
`some q` a finite value. -/
abbrev Fl := Option ℚ

/-- Subtraction of host floats: NaN propagates through either operand. -/
def flSub : Fl → Fl → Fl
  | some a, some b => some (a - b)
  | _, _ => none

/-- Embedding of `np.nan_to_num(_, nan=0.0)` applied elementwise
(heatmap.py line 117): a NaN becomes `0.0`, finite values are unchanged. -/
def nan_to_num (x : Fl) : Fl := some (x.getD 0)

/-- Modelled from the spec: `COURT_LENGTH_HALF` lives in `court_geometry.py`,
which is not under the verified sources.  The spec fixes it only as the
process-wide half-court length constant; the standard half-court length in
feet is used.  No claim below depends on the numeric value. -/
def COURT_LENGTH_HALF : ℚ := 47

/-- Modelled from the spec: `COURT_WIDTH` from `court_geometry.py` (see
`COURT_LENGTH_HALF`); the standard court width in feet. -/
def COURT_WIDTH : ℚ := 50

/-- Areas discarded before aggregation (heatmap.py line 44). -/
def bad_areas : List String := ["Back Court(BC)", "None"]

/-- Embedding of `_collapse_atb_area` (heatmap.py lines 17-22). -/
def collapse_atb_area (area : String) : String :=
  if area = "Left Side(L)" ∨ area = "Left Side Center(LC)" then "Left Side(L)"
  else if area = "Right Side(R)" ∨ area = "Right Side Center(RC)" then "Right Side(R)"
  else "Center(C)"

/-- Row of the player zone table, as produced by `player_zone_fg_table`
(module `zone_tables.py`, outside the verified sources): attempt and make
counts per `(SHOT_ZONE_BASIC, SHOT_ZONE_AREA)` bucket.  The claims below
quantify over arbitrary such tables. -/
structure PlayerRow where
  basic : String
  area : String
  att : ℕ
  made : ℕ
deriving DecidableEq

/-- Row of the grouped player table after the `player_fg` column is added
(heatmap.py lines 54-58). -/
structure PlayerZone where
  basic : String
  area : String
  att : ℕ
  made : ℕ
  player_fg : ℚ
deriving DecidableEq

/-- Row of the league zone table, as produced by `league_zone_fg_table`
(module `zone_tables.py`, outside the verified sources): a pre-aggregated
league FG% per zone.  The `league_fg` float may be NaN (`none`). -/
structure LeagueRow where
  basic : String
  area : String
  league_fg : Fl
deriving DecidableEq

/-- Row of the merged zone table `zt` (heatmap.py lines 71-73). -/
structure ZtRow where
  basic : String
  area : String
  att : ℕ
  made : ℕ
  player_fg : ℚ
  league_fg : Fl
  diff : Fl
deriving DecidableEq

/-- Row filter of heatmap.py lines 45-46: drop back-court / unclassified areas. -/
def keep_area (a : String) : Bool := !(bad_areas.contains a)

/-- Collapse step on the player table (heatmap.py lines 49-53). -/
def player_collapse (r : PlayerRow) : PlayerRow :=
  if r.basic = "Above the Break 3" then { r with area := collapse_atb_area r.area } else r

/-- Collapse step on the league table (heatmap.py lines 60-64). -/
def league_collapse (r : LeagueRow) : LeagueRow :=
  if r.basic = "Above the Break 3" then { r with area := collapse_atb_area r.area } else r

/-- Distinct group keys of a player table.  (pandas `groupby` sorts its keys;
key order is immaterial here because all lookups into the grouped tables are
by key, and `dedup` likewise yields each key exactly once.) -/
def pkeys (rows : List PlayerRow) : List (String × String) :=
  (rows.map fun r => (r.basic, r.area)).dedup

/-- Distinct group keys of a league table (see `pkeys`). -/
def lkeys (rows : List LeagueRow) : List (String × String) :=
  (rows.map fun r => (r.basic, r.area)).dedup

/-- Embedding of heatmap.py lines 45-58 for the player table: filter bad
areas, collapse above-the-break areas, group by zone key summing `att` and
`made`, and add the `player_fg` column
(`made / att` when `att > 0`, else `0.0`). -/
def player_zone_stats (rows : List PlayerRow) : List PlayerZone :=
  let pl := (rows.filter fun r => keep_area r.area).map player_collapse
  (pkeys pl).map fun k =>
    let grp := pl.filter fun r => r.basic == k.1 && r.area == k.2
    let att := (grp.map (·.att)).sum
    let made := (grp.map (·.made)).sum
    { basic := k.1, area := k.2, att := att, made := made,
      player_fg := if 0 < att then (made : ℚ) / (att : ℚ) else 0 }

/-- Embedding of heatmap.py lines 45-68 for the league table: filter bad
areas, collapse above-the-break areas, group by zone key averaging
`league_fg` (pandas `mean` skips NaN; a group whose values are all NaN
yields NaN). -/
def league_zone_stats (rows : List LeagueRow) : List LeagueRow :=
  let lg := (rows.filter fun r => keep_area r.area).map league_collapse
  (lkeys lg).map fun k =>
    let vals := (lg.filter fun r => r.basic == k.1 && r.area == k.2).filterMap (·.league_fg)
    { basic := k.1, area := k.2,
      league_fg := if vals.length = 0 then none else some (vals.sum / (vals.length : ℚ)) }

/-- Embedding of heatmap.py lines 71-73: left-join the grouped player table
onto the grouped league table on the zone key (group keys are distinct, so
each player row matches at most one league row), fill a missing or NaN
`league_fg` with the row's own `player_fg`, and add the `diff` column. -/
def zone_table (player_rows : List PlayerRow) (league_rows : List LeagueRow) : List ZtRow :=
  let lg := league_zone_stats league_rows
  (player_zone_stats player_rows).map fun r =>
    let merged : Fl :=
      match lg.find? (fun g => g.basic == r.basic && g.area == r.area) with
      | none => none
      | some g => g.league_fg
    let filled : Fl :=
      match merged with
      | none => some r.player_fg
      | some v => some v
    { basic := r.basic, area := r.area, att := r.att, made := r.made,
      player_fg := r.player_fg, league_fg := filled,
      diff := flSub (some r.player_fg) filled }

/-- Lookup of a zone key in the merged table (the dictionaries of heatmap.py
lines 76-78; keys of `zt` are distinct, so first-match lookup coincides with
dictionary lookup). -/
def zt_find (zt : List ZtRow) (key : String × String) : Option ZtRow :=
  zt.find? fun r => r.basic == key.1 && r.area == key.2

/-- The `zone_to_diff` dictionary lookup: `none` when the key is absent. -/
def zone_to_diff (zt : List ZtRow) (key : String × String) : Option Fl :=
  (zt_find zt key).map (·.diff)

/-- The `zone_to_player` dictionary lookup with the `float("nan")` default of
heatmap.py line 108. -/
def zone_to_player (zt : List ZtRow) (key : String × String) : Fl :=
  (zt_find zt key).map (·.player_fg)

/-- The `zone_to_league` dictionary lookup with the `float("nan")` default of
heatmap.py line 109. -/
def zone_to_league (zt : List ZtRow) (key : String × String) : Fl :=
  match zt_find zt key with
  | none => none
  | some r => r.league_fg

/-- Embedding of `np.arange(start, stop, step)` over exact rationals:
`start + i * step` for `0 ≤ i < ⌈(stop - start) / step⌉`. -/
def arange (start stop step : ℚ) : List ℚ :=
  (List.range (⌈(stop - start) / step⌉).toNat).map fun (i : ℕ) => start + (i : ℚ) * step

/-- Cell-center x coordinates (heatmap.py line 81). -/
def x_centers (bin : ℚ) : List ℚ := arange (bin / 2) COURT_LENGTH_HALF bin

/-- Cell-center y coordinates (heatmap.py line 82). -/
def y_centers (bin : ℚ) : List ℚ :=
  arange (-COURT_WIDTH / 2 + bin / 2) (COURT_WIDTH / 2) bin

/-- Basic-zone classification of a cell center (heatmap.py line 93): the
classifier is called with `pad_ft = bin_ft / 2`.  `cb` abstracts
`classify_basic_zone` from `zone_classify.py`, which is outside the verified
sources; the theorems below hold for every classifier. -/
def cell_basic (cb : ℚ → ℚ → ℚ → String) (bin x y : ℚ) : String :=
  cb x y (bin / 2)

/-- Area of a cell (heatmap.py lines 95-100): paint-like basic zones force
`Center(C)`; otherwise the area comes from the y coordinate alone via the
lane classifier `cl` (abstracting `classify_area_lane`), collapsed when the
basic zone is `Above the Break 3`. -/
def cell_area (cb : ℚ → ℚ → ℚ → String) (cl : ℚ → String) (bin x y : ℚ) : String :=
  let basic := cell_basic cb bin x y
  if basic = "In The Paint (Non-RA)" ∨ basic = "Restricted Area" then "Center(C)"
  else
    let a := cl y
    if basic = "Above the Break 3" then collapse_atb_area a else a

/-- Zone key of a cell (heatmap.py line 102). -/
def cell_key (cb : ℚ → ℚ → ℚ → String) (cl : ℚ → String) (bin x y : ℚ) : String × String :=
  (cell_basic cb bin x y, cell_area cb cl bin x y)

/-- Zone label of a cell (heatmap.py line 105). -/
def cell_label (cb : ℚ → ℚ → ℚ → String) (cl : ℚ → String) (bin x y : ℚ) : String :=
  cell_basic cb bin x y ++ "_" ++ cell_area cb cl bin x y

/-- Diff value of a cell (heatmap.py line 103): dictionary lookup with
default `0.0`. -/
def cell_diff (zt : List ZtRow) (cb : ℚ → ℚ → ℚ → String) (cl : ℚ → String)
    (bin x y : ℚ) : Fl :=
  (zone_to_diff zt (cell_key cb cl bin x y)).getD (some 0)

/-- Rendering of a float as a one-decimal percentage, the `f"{p:.1%}"` of
heatmap.py lines 112-113; NaN renders as text, as in the host.  (The host's
exact digit rounding mode is a display concern; no claim inspects digits.) -/
def fmt_pct (x : Fl) : String :=
  match x with
  | none => "nan%"
  | some q =>
    let m : ℤ := round (q * 1000)
    toString (m / 10) ++ "." ++ toString (m.natAbs % 10) ++ "%"

/-- Signed percentage rendering, the `f"{diff:+.1%}"` of heatmap.py line 114. -/
def fmt_pct_signed (x : Fl) : String :=
  match x with
  | none => "nan%"
  | some q => (if 0 ≤ q then "+" else "") ++ fmt_pct (some q)

/-- Hover text of one cell (heatmap.py lines 107-115). -/
def hover_cell (zt : List ZtRow) (cb : ℚ → ℚ → ℚ → String) (cl : ℚ → String)
    (bin x y : ℚ) : String :=
  let basic := cell_basic cb bin x y
  let area := cell_area cb cl bin x y
  let key := (basic, area)
  let p := zone_to_player zt key
  let l := zone_to_league zt key
  let d := cell_diff zt cb cl bin x y
  "<b>" ++ basic ++ "</b> — " ++ area ++
    "<br>Player FG%: " ++ fmt_pct p ++
    "<br>League FG%: " ++ fmt_pct l ++
    "<br>Δ: " ++ fmt_pct_signed d

/-- Output record of `zone_diff_grid`: the `X, Y, Zdiff, labels, hover_text`
arrays (the `return_labels` / `return_text` flags only select which of these
the Python function returns). -/
structure DiffGridOut where
  X : List (List ℚ)
  Y : List (List ℚ)
  Zdiff : List (List Fl)
  labels : List (List String)
  hover_text : List (List (Option String))
deriving DecidableEq

/-- Embedding of `zone_diff_grid` (heatmap.py lines 25-126).  The source
allocates the output arrays and then assigns every cell exactly once from
that cell's own coordinates, so the loop is embedded as a per-cell map;
`np.nan_to_num` (line 117) is applied elementwise to the assigned values. -/
def zone_diff_grid (cb : ℚ → ℚ → ℚ → String) (cl : ℚ → String)
    (player_rows : List PlayerRow) (league_rows : List LeagueRow)
    (bin : ℚ) : DiffGridOut :=
  let zt := zone_table player_rows league_rows
  let xc := x_centers bin
  let yc := y_centers bin
  { X := yc.map fun _ => xc
    Y := yc.map fun y => xc.map fun _ => y
    Zdiff := yc.map fun y => xc.map fun x => nan_to_num (cell_diff zt cb cl bin x y)
    labels := yc.map fun y => xc.map fun x => cell_label cb cl bin x y
    hover_text := yc.map fun y => xc.map fun x => some (hover_cell zt cb cl bin x y) }

/-- Trivial basic-zone classifier used only to instantiate witnesses (the
grid theorems hold for every classifier). -/
def cbW : ℚ → ℚ → ℚ → String := fun _ _ _ => "Mid-Range"

/-- Trivial lane classifier used only to instantiate witnesses. -/
def clW : ℚ → String := fun _ => "Center(C)"

/-! ### Indexing helper -/

theorem getD_map_of_lt {α β : Type} (f : α → β) (l : List α) (i : ℕ) (d : β) (d' : α)
    (h : i < l.length) : (l.map f).getD i d = f (l.getD i d') := by
  induction l generalizing i with
  | nil => simp at h
  | cons a t ih =>
    cases i with
    | zero => simp
    | succ n => simpa using ih n (by simpa using h)

/-! ### Claims about the zone tables and the collapse rule -/

/-- C7: `_collapse_atb_area` maps both `Left Side(L)` and
`Left Side Center(LC)` to `Left Side(L)`, symmetrically on the right, and is
idempotent on every area string. -/
theorem collapse_atb_area_maps_and_idempotent :
    collapse_atb_area "Left Side(L)" = "Left Side(L)" ∧
    collapse_atb_area "Left Side Center(LC)" = "Left Side(L)" ∧
    collapse_atb_area "Right Side(R)" = "Right Side(R)" ∧
    collapse_atb_area "Right Side Center(RC)" = "Right Side(R)" ∧
    ∀ a : String, collapse_atb_area (collapse_atb_area a) = collapse_atb_area a := by
  refine ⟨by simp [collapse_atb_area], by simp [collapse_atb_area],
    by simp [collapse_atb_area], by simp [collapse_atb_area], ?_⟩
  intro a
  by_cases h1 : a = "Left Side(L)" ∨ a = "Left Side Center(LC)"
  · simp [collapse_atb_area, h1]
  · by_cases h2 : a = "Right Side(R)" ∨ a = "Right Side Center(RC)"
    · simp [collapse_atb_area, h1, h2]
    · simp [collapse_atb_area, h1, h2]

/-- C6: every zone bucket of the grouped player table carries
`player_fg = made / att` when `att > 0` and `player_fg = 0` when `att = 0`;
the division is guarded, so no division by zero occurs. -/
theorem player_zone_stats_fg_spec (rows : List PlayerRow) :
    ∀ r ∈ player_zone_stats rows,
      (0 < r.att → r.player_fg = (r.made : ℚ) / (r.att : ℚ)) ∧
      (r.att = 0 → r.player_fg = 0) := by
  intro r hr
  simp only [player_zone_stats, List.mem_map] at hr
  obtain ⟨k, hk, rfl⟩ := hr
  constructor
  · intro h
    simp only at h ⊢
    rw [if_pos h]
  · intro h
    simp only at h ⊢
    rw [h]
    simp

/-- Witness for C6 at a concrete one-row player table. -/
theorem player_zone_stats_fg_spec_w :
    (⟨"Restricted Area", "Center(C)", 2, 1, 1/2⟩ : PlayerZone) ∈
        player_zone_stats [⟨"Restricted Area", "Center(C)", 2, 1⟩] ∧
      ((0 < (2 : ℕ) → (1/2 : ℚ) = ((1 : ℕ) : ℚ) / ((2 : ℕ) : ℚ)) ∧
       ((2 : ℕ) = 0 → (1/2 : ℚ) = 0)) := by
  have htab : player_zone_stats [⟨"Restricted Area", "Center(C)", 2, 1⟩] =
      [⟨"Restricted Area", "Center(C)", 2, 1, 1/2⟩] := by
    simp [player_zone_stats, pkeys, keep_area, bad_areas, player_collapse, collapse_atb_area]
  have hmem : (⟨"Restricted Area", "Center(C)", 2, 1, 1/2⟩ : PlayerZone) ∈
      player_zone_stats [⟨"Restricted Area", "Center(C)", 2, 1⟩] := by
    rw [htab]
    exact List.mem_singleton.mpr rfl
  exact ⟨hmem, player_zone_stats_fg_spec _ _ hmem⟩

/-- C2: a zone key present in the grouped player table but absent from the
grouped league table gets its `league_fg` filled with the row's own
`player_fg`, making its `diff` exactly `0`; the construction is a total
function, so the substitution cannot fail. -/
theorem zone_table_missing_league_fallback (player_rows : List PlayerRow)
    (league_rows : List LeagueRow) :
    ∀ r ∈ zone_table player_rows league_rows,
      (r.basic, r.area) ∉ (league_zone_stats league_rows).map (fun g => (g.basic, g.area)) →
      r.league_fg = some r.player_fg ∧ r.diff = some 0 := by
  intro r hr habs
  simp only [zone_table, List.mem_map] at hr
  obtain ⟨p, hp, rfl⟩ := hr
  simp only at habs
  have hfind : (league_zone_stats league_rows).find?
      (fun g => g.basic == p.basic && g.area == p.area) = none := by
    rw [List.find?_eq_none]
    intro g hg hmatch
    rw [Bool.and_eq_true, beq_iff_eq, beq_iff_eq] at hmatch
    exact habs (List.mem_map.mpr ⟨g, hg, by rw [hmatch.1, hmatch.2]⟩)
  simp [hfind, flSub]

/-- Witness for C2: one player bucket, empty league table. -/
theorem zone_table_missing_league_fallback_w :
    (⟨"Restricted Area", "Center(C)", 4, 2, 1/2, some (1/2), some 0⟩ : ZtRow) ∈
        zone_table [⟨"Restricted Area", "Center(C)", 4, 2⟩] [] ∧
    (("Restricted Area", "Center(C)") ∉
        (league_zone_stats []).map (fun g => (g.basic, g.area))) ∧
    ((some (1/2 : ℚ) : Fl) = some (1/2 : ℚ) ∧ (some (0 : ℚ) : Fl) = some 0) := by
  have htab : zone_table [⟨"Restricted Area", "Center(C)", 4, 2⟩] [] =
      [⟨"Restricted Area", "Center(C)", 4, 2, 1/2, some (1/2), some 0⟩] := by
    simp [zone_table, player_zone_stats, league_zone_stats, pkeys, lkeys, keep_area,
      bad_areas, player_collapse, collapse_atb_area, flSub]
    norm_num
  have hmem : (⟨"Restricted Area", "Center(C)", 4, 2, 1/2, some (1/2), some 0⟩ : ZtRow) ∈
      zone_table [⟨"Restricted Area", "Center(C)", 4, 2⟩] [] := by
    rw [htab]
    exact List.mem_singleton.mpr rfl
  have habs : (("Restricted Area", "Center(C)") : String × String) ∉
      (league_zone_stats []).map (fun g => (g.basic, g.area)) := by
    simp [league_zone_stats, lkeys]
  exact ⟨hmem, habs, zone_table_missing_league_fallback _ _ _ hmem habs⟩

/-- C1: a grid cell whose `(basic, area)` key is absent from the merged zone
table stores exactly `0.0` in the final diff grid. -/
theorem zone_diff_grid_absent_key_zero (cb : ℚ → ℚ → ℚ → String) (cl : ℚ → String)
    (player_rows : List PlayerRow) (league_rows : List LeagueRow) (bin : ℚ) (i j : ℕ)
    (hi : i < (y_centers bin).length) (hj : j < (x_centers bin).length)
    (habs : cell_key cb cl bin ((x_centers bin).getD j 0) ((y_centers bin).getD i 0) ∉
      (zone_table player_rows league_rows).map fun r => (r.basic, r.area)) :
    ((zone_diff_grid cb cl player_rows league_rows bin).Zdiff.getD i []).getD j none
      = some 0 := by
  have h1 : (zone_diff_grid cb cl player_rows league_rows bin).Zdiff.getD i [] =
      (x_centers bin).map (fun x =>
        nan_to_num (cell_diff (zone_table player_rows league_rows) cb cl bin x
          ((y_centers bin).getD i 0))) := by
    simp only [zone_diff_grid]
    exact getD_map_of_lt _ _ _ _ 0 hi
  rw [h1, getD_map_of_lt _ _ _ _ 0 hj]
  have hfind : zt_find (zone_table player_rows league_rows)
      (cell_key cb cl bin ((x_centers bin).getD j 0) ((y_centers bin).getD i 0)) = none := by
    rw [zt_find, List.find?_eq_none]
    intro r hr hmatch
    rw [Bool.and_eq_true, beq_iff_eq, beq_iff_eq] at hmatch
    refine habs (List.mem_map.mpr ⟨r, hr, ?_⟩)
    rw [Prod.ext_iff]
    exact ⟨hmatch.1, hmatch.2⟩
  simp only [cell_diff, zone_to_diff]
  rw [hfind]
  simp [nan_to_num]

/-- Witness for C1: empty tables, so every cell key is absent. -/
theorem zone_diff_grid_absent_key_zero_w :
    0 < (y_centers 2).length ∧ 0 < (x_centers 2).length ∧
    (cell_key cbW clW 2 ((x_centers 2).getD 0 0) ((y_centers 2).getD 0 0) ∉
      (zone_table [] []).map fun r => (r.basic, r.area)) ∧
    ((zone_diff_grid cbW clW [] [] 2).Zdiff.getD 0 []).getD 0 none = some 0 := by
  have hi : 0 < (y_centers 2).length := by
    rw [y_centers, arange, List.length_map, List.length_range, Int.lt_toNat]
    rw [COURT_WIDTH]
    push_cast
    rw [Int.ceil_pos]
    norm_num
  have hj : 0 < (x_centers 2).length := by
    rw [x_centers, arange, List.length_map, List.length_range, Int.lt_toNat]
    rw [COURT_LENGTH_HALF]
    push_cast
    rw [Int.ceil_pos]
    norm_num
  have habs : cell_key cbW clW 2 ((x_centers 2).getD 0 0) ((y_centers 2).getD 0 0) ∉
      (zone_table [] []).map fun r => (r.basic, r.area) := by
    simp [zone_table, player_zone_stats, pkeys]
  exact ⟨hi, hj, habs, zone_diff_grid_absent_key_zero cbW clW [] [] 2 0 0 hi hj habs⟩

/-! ### Claims about the grid lattice and the per-cell rule -/

theorem mem_arange_iff (s t step : ℚ) (hstep : 0 < step) (q : ℚ) :
    q ∈ arange s t step ↔ ∃ k : ℕ, q = s + (k : ℚ) * step ∧ q < t := by
  unfold arange
  rw [List.mem_map]
  constructor
  · rintro ⟨i, hi, rfl⟩
    rw [List.mem_range, Int.lt_toNat] at hi
    refine ⟨i, rfl, ?_⟩
    have h2 : (i : ℚ) < (t - s) / step := by exact_mod_cast Int.lt_ceil.mp hi
    have h3 : (i : ℚ) * step < t - s := (lt_div_iff₀ hstep).mp h2
    linarith
  · rintro ⟨k, rfl, hq⟩
    refine ⟨k, ?_, rfl⟩
    rw [List.mem_range, Int.lt_toNat, Int.lt_ceil]
    push_cast
    rw [lt_div_iff₀ hstep]
    linarith

/-- C3: the coordinate grids returned by `zone_diff_grid` do not depend on
the player or league tables, and the cell centers are exactly the regular
lattice `bin/2 + k·bin` below the half-length in x and
`-width/2 + bin/2 + k·bin` below `width/2` in y. -/
theorem zone_diff_grid_lattice (cb : ℚ → ℚ → ℚ → String) (cl : ℚ → String)
    (bin : ℚ) (hbin : 0 < bin)
    (player_rows player_rows' : List PlayerRow) (league_rows league_rows' : List LeagueRow) :
    (zone_diff_grid cb cl player_rows league_rows bin).X =
      (zone_diff_grid cb cl player_rows' league_rows' bin).X ∧
    (zone_diff_grid cb cl player_rows league_rows bin).Y =
      (zone_diff_grid cb cl player_rows' league_rows' bin).Y ∧
    (zone_diff_grid cb cl player_rows league_rows bin).X =
      (y_centers bin).map (fun _ => x_centers bin) ∧
    (zone_diff_grid cb cl player_rows league_rows bin).Y =
      (y_centers bin).map (fun y => (x_centers bin).map fun _ => y) ∧
    (∀ q : ℚ, q ∈ x_centers bin ↔
      ∃ k : ℕ, q = bin / 2 + (k : ℚ) * bin ∧ q < COURT_LENGTH_HALF) ∧
    (∀ q : ℚ, q ∈ y_centers bin ↔
      ∃ k : ℕ, q = -COURT_WIDTH / 2 + bin / 2 + (k : ℚ) * bin ∧ q < COURT_WIDTH / 2) := by
  refine ⟨rfl, rfl, rfl, rfl, fun q => ?_, fun q => ?_⟩
  · exact mem_arange_iff _ _ _ hbin q
  · exact mem_arange_iff _ _ _ hbin q

/-- Witness for C3 at `bin = 2`. -/
theorem zone_diff_grid_lattice_w :
    (0 : ℚ) < 2 ∧
    ((zone_diff_grid cbW clW [] [] 2).X = (zone_diff_grid cbW clW [⟨"a", "b", 1, 1⟩] [] 2).X ∧
    (zone_diff_grid cbW clW [] [] 2).Y = (zone_diff_grid cbW clW [⟨"a", "b", 1, 1⟩] [] 2).Y ∧
    (zone_diff_grid cbW clW [] [] 2).X = (y_centers 2).map (fun _ => x_centers 2) ∧
    (zone_diff_grid cbW clW [] [] 2).Y =
      (y_centers 2).map (fun y => (x_centers 2).map fun _ => y) ∧
    (∀ q : ℚ, q ∈ x_centers 2 ↔
      ∃ k : ℕ, q = 2 / 2 + (k : ℚ) * 2 ∧ q < COURT_LENGTH_HALF) ∧
    (∀ q : ℚ, q ∈ y_centers 2 ↔
      ∃ k : ℕ, q = -COURT_WIDTH / 2 + 2 / 2 + (k : ℚ) * 2 ∧ q < COURT_WIDTH / 2)) :=
  ⟨by norm_num, zone_diff_grid_lattice cbW clW 2 (by norm_num) [] [⟨"a", "b", 1, 1⟩] [] []⟩

/-- The per-cell labelling rule exactly as the claim words it (a second
definition, to be compared with the embedded `cell_label`): classify the
center with pad `bin/2`; paint-like basic zones force area `Center(C)`,
otherwise the area comes from `y` alone and is collapsed under
`Above the Break 3`; the label is `basic ++ "_" ++ area`. -/
def cell_label_claim (cb : ℚ → ℚ → ℚ → String) (cl : ℚ → String) (bin x y : ℚ) : String :=
  let basic := cb x y (bin / 2)
  let area :=
    if basic = "In The Paint (Non-RA)" ∨ basic = "Restricted Area" then "Center(C)"
    else if basic = "Above the Break 3" then collapse_atb_area (cl y) else cl y
  basic ++ "_" ++ area

/-- C4: every cell of the label grid carries exactly the label the claim
describes, for every classifier pair and input tables. -/
theorem zone_diff_grid_labels_spec (cb : ℚ → ℚ → ℚ → String) (cl : ℚ → String)
    (player_rows : List PlayerRow) (league_rows : List LeagueRow) (bin : ℚ) (i j : ℕ)
    (hi : i < (y_centers bin).length) (hj : j < (x_centers bin).length) :
    ((zone_diff_grid cb cl player_rows league_rows bin).labels.getD i []).getD j "" =
      cell_label_claim cb cl bin ((x_centers bin).getD j 0) ((y_centers bin).getD i 0) := by
  have h1 : (zone_diff_grid cb cl player_rows league_rows bin).labels.getD i [] =
      (x_centers bin).map (fun x => cell_label cb cl bin x ((y_centers bin).getD i 0)) := by
    simp only [zone_diff_grid]
    exact getD_map_of_lt _ _ _ _ 0 hi
  rw [h1, getD_map_of_lt _ _ _ _ 0 hj]
  rfl

/-- Witness for C4 at the cell `(0, 0)` of the `bin = 2` grid. -/
theorem zone_diff_grid_labels_spec_w :
    0 < (y_centers 2).length ∧ 0 < (x_centers 2).length ∧
    ((zone_diff_grid cbW clW [] [] 2).labels.getD 0 []).getD 0 "" =
      cell_label_claim cbW clW 2 ((x_centers 2).getD 0 0) ((y_centers 2).getD 0 0) := by
  have hi : 0 < (y_centers 2).length := by
    rw [y_centers, arange, List.length_map, List.length_range, Int.lt_toNat]
    rw [COURT_WIDTH]
    push_cast
    rw [Int.ceil_pos]
    norm_num
  have hj : 0 < (x_centers 2).length := by
    rw [x_centers, arange, List.length_map, List.length_range, Int.lt_toNat]
    rw [COURT_LENGTH_HALF]
    push_cast
    rw [Int.ceil_pos]
    norm_num
  exact ⟨hi, hj, zone_diff_grid_labels_spec cbW clW [] [] 2 0 0 hi hj⟩

/-- C8: no NaN reaches the outputs of `zone_diff_grid`: every entry of the
final diff grid and of the hover-text grid is a proper value (`isSome`), and
the elementwise `nan_to_num` maps NaN to `0.0` and leaves finite values
unchanged. -/
theorem zone_diff_grid_no_nan (cb : ℚ → ℚ → ℚ → String) (cl : ℚ → String)
    (player_rows : List PlayerRow) (league_rows : List LeagueRow) (bin : ℚ) (i j : ℕ)
    (hi : i < (y_centers bin).length) (hj : j < (x_centers bin).length) :
    (((zone_diff_grid cb cl player_rows league_rows bin).Zdiff.getD i []).getD j none).isSome
        = true ∧
    (((zone_diff_grid cb cl player_rows league_rows bin).hover_text.getD i []).getD j
        none).isSome = true ∧
    nan_to_num none = some 0 ∧ ∀ q : ℚ, nan_to_num (some q) = some q := by
  refine ⟨?_, ?_, rfl, fun q => rfl⟩
  · have h1 : (zone_diff_grid cb cl player_rows league_rows bin).Zdiff.getD i [] =
        (x_centers bin).map (fun x =>
          nan_to_num (cell_diff (zone_table player_rows league_rows) cb cl bin x
            ((y_centers bin).getD i 0))) := by
      simp only [zone_diff_grid]
      exact getD_map_of_lt _ _ _ _ 0 hi
    rw [h1, getD_map_of_lt _ _ _ _ 0 hj]
    rfl
  · have h1 : (zone_diff_grid cb cl player_rows league_rows bin).hover_text.getD i [] =
        (x_centers bin).map (fun x =>
          some (hover_cell (zone_table player_rows league_rows) cb cl bin x
            ((y_centers bin).getD i 0))) := by
      simp only [zone_diff_grid]
      exact getD_map_of_lt _ _ _ _ 0 hi
    rw [h1, getD_map_of_lt _ _ _ _ 0 hj]
    rfl

/-- Witness for C8 at the cell `(0, 0)` of the `bin = 2` grid. -/
theorem zone_diff_grid_no_nan_w :
    0 < (y_centers 2).length ∧ 0 < (x_centers 2).length ∧
    ((((zone_diff_grid cbW clW [] [] 2).Zdiff.getD 0 []).getD 0 none).isSome = true ∧
    ((((zone_diff_grid cbW clW [] [] 2).hover_text.getD 0 []).getD 0 none).isSome = true) ∧
    nan_to_num none = some 0 ∧ ∀ q : ℚ, nan_to_num (some q) = some q) := by
  have hi : 0 < (y_centers 2).length := by
    rw [y_centers, arange, List.length_map, List.length_range, Int.lt_toNat]
    rw [COURT_WIDTH]
    push_cast
    rw [Int.ceil_pos]
    norm_num
  have hj : 0 < (x_centers 2).length := by
    rw [x_centers, arange, List.length_map, List.length_range, Int.lt_toNat]
    rw [COURT_LENGTH_HALF]
    push_cast
    rw [Int.ceil_pos]
    norm_num
  exact ⟨hi, hj, zone_diff_grid_no_nan cbW clW [] [] 2 0 0 hi hj⟩

/-! ### The boundary tracer (`add_zone_boundaries_from_labels`) -/

/-- One emitted boundary line trace (heatmap.py `_add_segment`, lines
258-269): endpoints of the segment and whether it is the white halo
companion or the main black boundary. -/
structure Seg where
  x0 : ℚ
  x1 : ℚ
  y0 : ℚ
  y1 : ℚ
  is_halo : Bool
deriving DecidableEq

/-- Consecutive differences, `np.diff` (heatmap.py lines 249-250). -/
def diffs (l : List ℚ) : List ℚ := List.zipWith (fun a b => b - a) l l.tail

/-- Insertion into a sorted list, used by `sortQ`. -/
def insSorted (x : ℚ) : List ℚ → List ℚ
  | [] => [x]
  | y :: ys => if x ≤ y then x :: y :: ys else y :: insSorted x ys

/-- Sorting of a rational list (the sort inside `np.median`; only the sorted
order matters, not the algorithm). -/
def sortQ : List ℚ → List ℚ
  | [] => []
  | x :: xs => insSorted x (sortQ xs)

/-- Embedding of `np.median`: sort, then take the middle element (odd
length) or the mean of the two middle elements (even length). -/
def median (l : List ℚ) : ℚ :=
  let s := sortQ l
  let n := s.length
  if n = 0 then 0
  else if n % 2 = 1 then s.getD (n / 2) 0
  else (s.getD (n / 2 - 1) 0 + s.getD (n / 2) 0) / 2

/-- The estimated bin size (heatmap.py lines 249-250): median of the
consecutive center differences, with fallback `2.0` for a single center. -/
def bin_size (cent : List ℚ) : ℚ :=
  if 1 < cent.length then median (diffs cent) else 2

/-- Midpoints of adjacent centers (heatmap.py lines 253-254). -/
def mids (l : List ℚ) : List ℚ := List.zipWith (fun a b => (a + b) / 2) l l.tail

/-- Bin edges from bin centers (heatmap.py lines 253-254): one extrapolated
outer edge on each side around the midpoints. -/
def edges_of (cent : List ℚ) (d : ℚ) : List ℚ :=
  (cent.headD 0 - d / 2) :: (mids cent ++ [cent.getLastD 0 + d / 2])

/-- Label of the cell at row `i`, column `j` of the label grid. -/
def lab (labels : List (List String)) (i j : ℕ) : String :=
  (labels.getD i []).getD j ""

/-- Embedding of `add_zone_boundaries_from_labels` (heatmap.py lines
223-285) as the list of emitted line segments, in emission order: all
vertical boundaries (row-major), then all horizontal ones; each differing
adjacency emits an optional halo trace followed by the main trace. -/
def add_zone_boundaries_from_labels (X Y : List (List ℚ)) (labels : List (List String))
    (halo : Bool) : List Seg :=
  let x_cent := X.headD []
  let y_cent := Y.map fun row => row.headD 0
  let dx := bin_size x_cent
  let dy := bin_size y_cent
  let x_edges := edges_of x_cent dx
  let y_edges := edges_of y_cent dy
  let ny := labels.length
  let nx := (labels.headD []).length
  let seg := fun (x0 x1 y0 y1 : ℚ) =>
    (if halo then [Seg.mk x0 x1 y0 y1 true] else []) ++ [Seg.mk x0 x1 y0 y1 false]
  let vertical := (List.range ny).flatMap fun i =>
    (List.range (nx - 1)).flatMap fun j =>
      if lab labels i j ≠ lab labels i (j + 1) then
        seg (x_edges.getD (j + 1) 0) (x_edges.getD (j + 1) 0)
          (y_edges.getD i 0) (y_edges.getD (i + 1) 0)
      else []
  let horizontal := (List.range (ny - 1)).flatMap fun i =>
    (List.range nx).flatMap fun j =>
      if lab labels i j ≠ lab labels (i + 1) j then
        seg (x_edges.getD j 0) (x_edges.getD (j + 1) 0)
          (y_edges.getD (i + 1) 0) (y_edges.getD (i + 1) 0)
      else []
  vertical ++ horizontal

/-- The main (non-halo) segments the tracer emits. -/
def tracer_main (X Y : List (List ℚ)) (labels : List (List String)) (halo : Bool) :
    List Seg :=
  (add_zone_boundaries_from_labels X Y labels halo).filter fun s => !s.is_halo

/-- The vertical segment emitted between cells `(i, j)` and `(i, j+1)`: it
sits on the shared `x` edge and spans row `i`'s vertical extent. -/
def vseg (X Y : List (List ℚ)) (i j : ℕ) : Seg :=
  let x_edges := edges_of (X.headD []) (bin_size (X.headD []))
  let y_edges := edges_of (Y.map fun row => row.headD 0)
    (bin_size (Y.map fun row => row.headD 0))
  ⟨x_edges.getD (j + 1) 0, x_edges.getD (j + 1) 0,
    y_edges.getD i 0, y_edges.getD (i + 1) 0, false⟩

/-- The horizontal segment emitted between cells `(i, j)` and `(i+1, j)`: it
sits on the shared `y` edge and spans column `j`'s horizontal extent. -/
def hseg (X Y : List (List ℚ)) (i j : ℕ) : Seg :=
  let x_edges := edges_of (X.headD []) (bin_size (X.headD []))
  let y_edges := edges_of (Y.map fun row => row.headD 0)
    (bin_size (Y.map fun row => row.headD 0))
  ⟨x_edges.getD j 0, x_edges.getD (j + 1) 0,
    y_edges.getD (i + 1) 0, y_edges.getD (i + 1) 0, false⟩

/-! ### The rendering entry point (`viz_3d.py`) -/

/-- Apex-profile parameters of the arc synthesizer (the `apex_profile` dict
passed by `render_3d_trajectories`). -/
structure ApexProfile where
  base : ℚ
  slope : ℚ
  lo : ℚ
  hi : ℚ
deriving DecidableEq

/-- One observable action of `render_3d_trajectories` (viz_3d.py lines
17-67): the Streamlit warning, the three heatmap layers, the arc-rendering
call with its styling arguments, the shot-count caption, and the final chart
emission. -/
inductive RAction where
  | warning (msg : String)
  | surface (X Y : List (List ℚ)) (Zdiff : List (List Fl)) (vlim : ℚ)
  | hoverMarkers (X Y : List (List ℚ)) (hover : List (List (Option String)))
  | boundaries (segs : List Seg)
  | addShots (sample : ℕ) (release_height : ℚ) (uniformColor : Option String)
      (lineWidth : ℕ) (opacity : ℚ) (apex : ApexProfile) (added : ℕ)
  | caption (msg : String)
  | chart
deriving DecidableEq

/-- Embedding of `render_3d_trajectories` (viz_3d.py lines 17-67) as the
list of actions it performs.  `shots_added` abstracts `add_shots_from_df`
from `shots.py` (outside the verified sources): it returns the number of
shots actually rendered for a shot set and sample cap.  `toPlayer`
abstracts `player_zone_fg_table`, turning the raw shot table `df` into the
player zone table consumed by `zone_diff_grid`; the league table is taken in
the pre-aggregated form `league_zone_fg_table` yields.  The classifiers `cb`
and `cl` are abstract as in `zone_diff_grid`. -/
def render_3d_trajectories {α : Type} (shots_added : α → ℕ → ℕ)
    (toPlayer : α → List PlayerRow) (cb : ℚ → ℚ → ℚ → String) (cl : ℚ → String)
    (df : α) (league_df : Option (List LeagueRow)) (sample : ℕ)
    (overlay_heatmap : Bool) (vlim : ℚ) (force_make_miss_colors : Bool) : List RAction :=
  if overlay_heatmap then
    (if league_df = none ∨ league_df = some [] then
      [RAction.warning "League averages missing; cannot render hot/cold zones."]
    else
      let g := zone_diff_grid cb cl (toPlayer df) (league_df.getD []) 2
      [RAction.surface g.X g.Y g.Zdiff vlim,
       RAction.hoverMarkers g.X g.Y g.hover_text,
       RAction.boundaries (add_zone_boundaries_from_labels g.X g.Y g.labels true)])
    ++ [RAction.addShots sample 0
          (if force_make_miss_colors then none else some "#666666") 5 (2/5)
          ⟨10, 7/25, 13, 37/2⟩ (shots_added df sample),
        RAction.caption ("Rendering " ++ toString (shots_added df sample) ++ " shots"),
        RAction.chart]
  else
    [RAction.addShots sample 0
        (if force_make_miss_colors then none else some "#666666") 6 (11/20)
        ⟨21/2, 3/10, 14, 39/2⟩ (shots_added df sample),
     RAction.caption ("Rendering " ++ toString (shots_added df sample) ++ " shots"),
     RAction.chart]

/-- C9: with the heatmap overlay requested and a missing or empty league
table, the entry point emits exactly the "unavailable" warning followed by
the arc rendering, caption and chart: no diff-grid surface, hover layer or
boundary trace is computed or rendered. -/
theorem render_missing_league_signals_unavailable {α : Type} (shots_added : α → ℕ → ℕ)
    (toPlayer : α → List PlayerRow) (cb : ℚ → ℚ → ℚ → String) (cl : ℚ → String)
    (df : α) (league_df : Option (List LeagueRow)) (sample : ℕ) (vlim : ℚ) (force : Bool)
    (h : league_df = none ∨ league_df = some []) :
    render_3d_trajectories shots_added toPlayer cb cl df league_df sample true vlim force =
      [RAction.warning "League averages missing; cannot render hot/cold zones.",
       RAction.addShots sample 0 (if force then none else some "#666666") 5 (2/5)
         ⟨10, 7/25, 13, 37/2⟩ (shots_added df sample),
       RAction.caption ("Rendering " ++ toString (shots_added df sample) ++ " shots"),
       RAction.chart] := by
  rw [render_3d_trajectories, if_pos rfl, if_pos h]
  rfl

/-- Witness for C9 with a `none` league table. -/
theorem render_missing_league_signals_unavailable_w :
    ((none : Option (List LeagueRow)) = none ∨ (none : Option (List LeagueRow)) = some []) ∧
    render_3d_trajectories (fun (_ : Unit) n => n) (fun _ => []) cbW clW () none 100 true
        (3/20) false =
      [RAction.warning "League averages missing; cannot render hot/cold zones.",
       RAction.addShots 100 0 (some "#666666") 5 (2/5) ⟨10, 7/25, 13, 37/2⟩ 100,
       RAction.caption ("Rendering " ++ toString (100 : ℕ) ++ " shots"),
       RAction.chart] :=
  ⟨Or.inl rfl,
   render_missing_league_signals_unavailable (fun (_ : Unit) n => n) (fun _ => []) cbW clW
     () none 100 (3/20) false (Or.inl rfl)⟩

/-- C10: in the same missing-league situation, shot arcs are still added —
with the heatmap-mode apex profile `(base 10.0, slope 0.28, lo 13.0,
hi 18.5)`, the uniform-color setting, width 5 and opacity 0.40 — and the
count of rendered shots is still reported in the caption. -/
theorem render_missing_league_still_adds_shots {α : Type} (shots_added : α → ℕ → ℕ)
    (toPlayer : α → List PlayerRow) (cb : ℚ → ℚ → ℚ → String) (cl : ℚ → String)
    (df : α) (league_df : Option (List LeagueRow)) (sample : ℕ) (vlim : ℚ) (force : Bool)
    (h : league_df = none ∨ league_df = some []) :
    RAction.addShots sample 0 (if force then none else some "#666666") 5 (2/5)
        ⟨10, 7/25, 13, 37/2⟩ (shots_added df sample) ∈
      render_3d_trajectories shots_added toPlayer cb cl df league_df sample true vlim force ∧
    RAction.caption ("Rendering " ++ toString (shots_added df sample) ++ " shots") ∈
      render_3d_trajectories shots_added toPlayer cb cl df league_df sample true vlim force := by
  rw [render_3d_trajectories, if_pos rfl, if_pos h]
  constructor
  · exact List.mem_append.mpr (Or.inr (by simp))
  · exact List.mem_append.mpr (Or.inr (by simp))

/-- Witness for C10 with an empty league table. -/
theorem render_missing_league_still_adds_shots_w :
    ((some ([] : List LeagueRow)) = none ∨ (some ([] : List LeagueRow)) = some []) ∧
    (RAction.addShots 50 0 (none : Option String) 5 (2/5) ⟨10, 7/25, 13, 37/2⟩ 7 ∈
      render_3d_trajectories (fun (_ : Unit) _ => 7) (fun _ => []) cbW clW () (some []) 50
        true (3/20) true ∧
    RAction.caption ("Rendering " ++ toString (7 : ℕ) ++ " shots") ∈
      render_3d_trajectories (fun (_ : Unit) _ => 7) (fun _ => []) cbW clW () (some []) 50
        true (3/20) true) :=
  ⟨Or.inr rfl,
   render_missing_league_still_adds_shots (fun (_ : Unit) _ => 7) (fun _ => []) cbW clW
     () (some []) 50 (3/20) true (Or.inr rfl)⟩

/-! ### Facts about the boundary-tracer geometry helpers -/

theorem mem_insSorted (x a : ℚ) (l : List ℚ) : x ∈ insSorted a l ↔ x = a ∨ x ∈ l := by
  induction l with
  | nil => simp [insSorted]
  | cons y ys ih =>
    rw [insSorted]
    split_ifs with h
    · simp
    · simp only [List.mem_cons, ih]
      tauto

theorem mem_sortQ (x : ℚ) (l : List ℚ) : x ∈ sortQ l ↔ x ∈ l := by
  induction l with
  | nil => simp [sortQ]
  | cons a t ih =>
    rw [sortQ, mem_insSorted]
    simp [ih]

theorem length_insSorted (a : ℚ) (l : List ℚ) : (insSorted a l).length = l.length + 1 := by
  induction l with
  | nil => rfl
  | cons y ys ih =>
    rw [insSorted]
    split_ifs with h
    · simp
    · simp [ih]

theorem length_sortQ (l : List ℚ) : (sortQ l).length = l.length := by
  induction l with
  | nil => rfl
  | cons a t ih =>
    rw [sortQ, length_insSorted, ih]
    simp

theorem getD_mem_of_lt {α : Type} (l : List α) (i : ℕ) (d : α) (h : i < l.length) :
    l.getD i d ∈ l := by
  induction l generalizing i with
  | nil => simp at h
  | cons a t ih =>
    cases i with
    | zero => simp
    | succ n =>
      simp only [List.getD_cons_succ]
      exact List.mem_cons_of_mem a (ih n (by simpa using h))

theorem median_pos (l : List ℚ) (hne : l ≠ []) (hp : ∀ v ∈ l, 0 < v) : 0 < median l := by
  have hlen : (sortQ l).length = l.length := length_sortQ l
  have hn : l.length ≠ 0 := fun h0 => hne (List.length_eq_zero.mp h0)
  rw [median]
  simp only [hlen]
  split_ifs with h0 h1
  · exact absurd h0 hn
  · exact hp _ ((mem_sortQ _ _).mp (getD_mem_of_lt _ _ _ (by rw [hlen]; omega)))
  · have ha : 0 < (sortQ l).getD (l.length / 2 - 1) 0 :=
      hp _ ((mem_sortQ _ _).mp (getD_mem_of_lt _ _ _ (by rw [hlen]; omega)))
    have hb : 0 < (sortQ l).getD (l.length / 2) 0 :=
      hp _ ((mem_sortQ _ _).mp (getD_mem_of_lt _ _ _ (by rw [hlen]; omega)))
    linarith

theorem diffs_pos (c : List ℚ) (hc : List.Chain' (· < ·) c) : ∀ v ∈ diffs c, 0 < v := by
  induction c with
  | nil => intro v hv; simp [diffs] at hv
  | cons a t ih =>
    intro v hv
    cases t with
    | nil => simp [diffs] at hv
    | cons b t2 =>
      simp only [diffs, List.tail_cons, List.zipWith_cons_cons] at hv
      rcases List.mem_cons.mp hv with h | h
      · have hab : a < b := (List.chain'_cons.mp hc).1
        rw [h]
        linarith
      · exact ih (List.chain'_cons.mp hc).2 v h

theorem length_diffs (c : List ℚ) : (diffs c).length = c.length - 1 := by
  rw [diffs, List.length_zipWith, List.length_tail]
  omega

theorem bin_size_pos (c : List ℚ) (hc : List.Chain' (· < ·) c) : 0 < bin_size c := by
  rw [bin_size]
  split_ifs with h
  · refine median_pos _ (fun hnil => ?_) (diffs_pos c hc)
    have := length_diffs c
    rw [hnil] at this
    simp at this
    omega
  · norm_num

theorem getLastD_eq_of_ne_nil {l : List ℚ} (h : l ≠ []) (d d' : ℚ) :
    l.getLastD d = l.getLastD d' := by
  rw [List.getLastD_eq_getLast?, List.getLastD_eq_getLast?]
  cases hl : l.getLast? with
  | none => exact absurd (List.getLast?_eq_none_iff.mp hl) h
  | some z => rfl

theorem edges_chain (d : ℚ) (hd : 0 < d) (c : List ℚ) (hc : List.Chain' (· < ·) c) :
    List.Chain' (· < ·) (edges_of c d) := by
  induction c with
  | nil =>
    refine List.chain'_cons.mpr ⟨?_, List.chain'_singleton _⟩
    show (0 : ℚ) - d / 2 < (0 : ℚ) + d / 2
    linarith
  | cons a t ih =>
    cases t with
    | nil =>
      refine List.chain'_cons.mpr ⟨?_, List.chain'_singleton _⟩
      show a - d / 2 < a + d / 2
      linarith
    | cons b t2 =>
      have hab : a < b := (List.chain'_cons.mp hc).1
      have hbt : List.Chain' (· < ·) (b :: t2) := (List.chain'_cons.mp hc).2
      have hedge : edges_of (a :: b :: t2) d =
          (a - d / 2) :: ((a + b) / 2 ::
            (mids (b :: t2) ++ [(b :: t2).getLastD 0 + d / 2])) := by
        rw [edges_of, List.getLastD_cons, getLastD_eq_of_ne_nil (List.cons_ne_nil b t2) a 0]
        rfl
      have hbe : edges_of (b :: t2) d =
          (b - d / 2) :: (mids (b :: t2) ++ [(b :: t2).getLastD 0 + d / 2]) := rfl
      have htail : List.Chain' (· < ·)
          (mids (b :: t2) ++ [(b :: t2).getLastD 0 + d / 2]) := by
        have := ih hbt
        rw [hbe] at this
        exact (List.chain'_cons'.mp this).2
      rw [hedge]
      refine List.chain'_cons.mpr ⟨by linarith, ?_⟩
      refine List.chain'_cons'.mpr ⟨?_, htail⟩
      intro z hz
      cases t2 with
      | nil =>
        simp [mids] at hz
        rw [← hz]
        linarith
      | cons e t3 =>
        have hbe2 : b < e := (List.chain'_cons.mp hbt).1
        simp [mids] at hz
        rw [← hz]
        linarith

theorem chain_getD_lt (l : List ℚ) (h : List.Chain' (· < ·) l) (i j : ℕ) (hij : i < j)
    (hj : j < l.length) : l.getD i 0 < l.getD j 0 := by
  have hp := List.chain'_iff_pairwise.mp h
  rw [List.pairwise_iff_getElem] at hp
  have hi : i < l.length := lt_trans hij hj
  have hlt := hp i j hi hj hij
  rw [List.getD_eq_getElem?_getD, List.getD_eq_getElem?_getD,
    List.getElem?_eq_getElem hi, List.getElem?_eq_getElem hj]
  simpa using hlt

theorem length_edges_of (c : List ℚ) (d : ℚ) (hne : c ≠ []) :
    (edges_of c d).length = c.length + 1 := by
  have h1 : (mids c).length = c.length - 1 := by
    rw [mids, List.length_zipWith, List.length_tail]
    omega
  have h2 : 1 ≤ c.length := by
    cases c with
    | nil => exact absurd rfl hne
    | cons a t => simp
  rw [edges_of]
  simp [h1]
  omega

theorem add_zone_boundaries_eq (X Y : List (List ℚ)) (labels : List (List String))
    (halo : Bool) :
    add_zone_boundaries_from_labels X Y labels halo =
      ((List.range labels.length).flatMap fun i =>
        (List.range ((labels.headD []).length - 1)).flatMap fun j =>
          if lab labels i j ≠ lab labels i (j + 1) then
            (if halo then [{ vseg X Y i j with is_halo := true }] else []) ++ [vseg X Y i j]
          else []) ++
      ((List.range (labels.length - 1)).flatMap fun i =>
        (List.range (labels.headD []).length).flatMap fun j =>
          if lab labels i j ≠ lab labels (i + 1) j then
            (if halo then [{ hseg X Y i j with is_halo := true }] else []) ++ [hseg X Y i j]
          else []) := rfl

theorem nodup_flatMap_flatMap (m n : ℕ) (cell : ℕ → ℕ → List Seg)
    (hcell : ∀ i j, (cell i j).Nodup)
    (hdisj2 : ∀ i j j', j < n → j' < n → j ≠ j' → ∀ s, s ∈ cell i j → s ∉ cell i j')
    (hdisj1 : ∀ i i' j j', i < m → i' < m → i ≠ i' → ∀ s, s ∈ cell i j → s ∉ cell i' j') :
    ((List.range m).flatMap fun i => (List.range n).flatMap fun j => cell i j).Nodup := by
  rw [List.nodup_flatMap]
  constructor
  · intro i hi
    rw [List.nodup_flatMap]
    constructor
    · intro j hj
      exact hcell i j
    · rw [List.pairwise_iff_getElem]
      intro p q hp hq hpq
      simp only [List.getElem_range, List.length_range] at hp hq ⊢
      simp only [Function.onFun]
      intro s hsp hsq
      exact hdisj2 i p q hp hq (by omega) s hsp hsq
  · rw [List.pairwise_iff_getElem]
    intro p q hp hq hpq
    simp only [List.getElem_range, List.length_range] at hp hq ⊢
    simp only [Function.onFun]
    intro s hs hs'
    rw [List.mem_flatMap] at hs hs'
    obtain ⟨j, hj, hs⟩ := hs
    obtain ⟨j', hj', hs'⟩ := hs'
    rw [List.mem_range] at hj hj'
    exact hdisj1 p q j j' hp hq (by omega) s hs hs'

/-- C5: the boundary tracer emits a main segment for a cell edge iff the two
adjacent cells' labels differ: every main segment comes from a differing
adjacency (vertical segments on the shared x edge spanning the row's
vertical extent, horizontal segments on the shared y edge spanning the
column's horizontal extent), every differing adjacency emits its segment,
and no duplicates occur.  Halo companions are styling traces flagged
`is_halo` and are excluded from the boundary-segment set. -/
theorem add_zone_boundaries_iff_labels_differ
    (X Y : List (List ℚ)) (labels : List (List String)) (halo : Bool)
    (hxchain : List.Chain' (· < ·) (X.headD []))
    (hychain : List.Chain' (· < ·) (Y.map fun row => row.headD 0))
    (hnx : (labels.headD []).length = (X.headD []).length)
    (hny : labels.length = Y.length) :
    (∀ s ∈ tracer_main X Y labels halo,
      (∃ i j, i < labels.length ∧ j + 1 < (labels.headD []).length ∧
        lab labels i j ≠ lab labels i (j + 1) ∧ s = vseg X Y i j) ∨
      (∃ i j, i + 1 < labels.length ∧ j < (labels.headD []).length ∧
        lab labels i j ≠ lab labels (i + 1) j ∧ s = hseg X Y i j)) ∧
    (∀ i j, i < labels.length → j + 1 < (labels.headD []).length →
      lab labels i j ≠ lab labels i (j + 1) →
      vseg X Y i j ∈ tracer_main X Y labels halo) ∧
    (∀ i j, i + 1 < labels.length → j < (labels.headD []).length →
      lab labels i j ≠ lab labels (i + 1) j →
      hseg X Y i j ∈ tracer_main X Y labels halo) ∧
    (tracer_main X Y labels halo).Nodup := by
  have hdx : 0 < bin_size (X.headD []) := bin_size_pos _ hxchain
  have hdy : 0 < bin_size (Y.map fun row => row.headD 0) := bin_size_pos _ hychain
  have hxe : List.Chain' (· < ·) (edges_of (X.headD []) (bin_size (X.headD []))) :=
    edges_chain _ hdx _ hxchain
  have hye : List.Chain' (· < ·) (edges_of (Y.map fun row => row.headD 0)
      (bin_size (Y.map fun row => row.headD 0))) := edges_chain _ hdy _ hychain
  have hxe_lt : ∀ p q : ℕ, p < q → q ≤ (labels.headD []).length →
      (edges_of (X.headD []) (bin_size (X.headD []))).getD p 0 <
        (edges_of (X.headD []) (bin_size (X.headD []))).getD q 0 := by
    intro p q hpq hq
    apply chain_getD_lt _ hxe p q hpq
    have hpos : 0 < (X.headD []).length := by omega
    rw [length_edges_of _ _ (List.length_pos.mp hpos)]
    omega
  have hye_lt : ∀ p q : ℕ, p < q → q ≤ labels.length →
      (edges_of (Y.map fun row => row.headD 0)
          (bin_size (Y.map fun row => row.headD 0))).getD p 0 <
        (edges_of (Y.map fun row => row.headD 0)
          (bin_size (Y.map fun row => row.headD 0))).getD q 0 := by
    intro p q hpq hq
    apply chain_getD_lt _ hye p q hpq
    have hylen : (Y.map fun row => row.headD 0).length = Y.length := List.length_map _ _
    have hpos : 0 < (Y.map fun row => row.headD 0).length := by omega
    rw [length_edges_of _ _ (List.length_pos.mp hpos)]
    omega
  have hv_coords : ∀ i j : ℕ, ∀ s : Seg,
      s ∈ (if lab labels i j ≠ lab labels i (j + 1) then
            (if halo then [{ vseg X Y i j with is_halo := true }] else []) ++ [vseg X Y i j]
          else []) →
      s.x0 = (vseg X Y i j).x0 ∧ s.x1 = (vseg X Y i j).x1 ∧
        s.y0 = (vseg X Y i j).y0 ∧ s.y1 = (vseg X Y i j).y1 := by
    intro i j s hs
    by_cases hc : lab labels i j ≠ lab labels i (j + 1)
    · rw [if_pos hc, List.mem_append] at hs
      have hcases : s = { vseg X Y i j with is_halo := true } ∨ s = vseg X Y i j := by
        rcases hs with h | h
        · cases halo with
          | false => simp at h
          | true => exact Or.inl (List.mem_singleton.mp h)
        · exact Or.inr (List.mem_singleton.mp h)
      rcases hcases with h | h
      · rw [h]
        exact ⟨rfl, rfl, rfl, rfl⟩
      · rw [h]
        exact ⟨rfl, rfl, rfl, rfl⟩
    · rw [if_neg hc] at hs
      simp at hs
  have hh_coords : ∀ i j : ℕ, ∀ s : Seg,
      s ∈ (if lab labels i j ≠ lab labels (i + 1) j then
            (if halo then [{ hseg X Y i j with is_halo := true }] else []) ++ [hseg X Y i j]
          else []) →
      s.x0 = (hseg X Y i j).x0 ∧ s.x1 = (hseg X Y i j).x1 ∧
        s.y0 = (hseg X Y i j).y0 ∧ s.y1 = (hseg X Y i j).y1 := by
    intro i j s hs
    by_cases hc : lab labels i j ≠ lab labels (i + 1) j
    · rw [if_pos hc, List.mem_append] at hs
      have hcases : s = { hseg X Y i j with is_halo := true } ∨ s = hseg X Y i j := by
        rcases hs with h | h
        · cases halo with
          | false => simp at h
          | true => exact Or.inl (List.mem_singleton.mp h)
        · exact Or.inr (List.mem_singleton.mp h)
      rcases hcases with h | h
      · rw [h]
        exact ⟨rfl, rfl, rfl, rfl⟩
      · rw [h]
        exact ⟨rfl, rfl, rfl, rfl⟩
    · rw [if_neg hc] at hs
      simp at hs
  refine ⟨?_, ?_, ?_, ?_⟩
  · -- soundness: every emitted main segment comes from a differing adjacency
    intro s hs
    rw [tracer_main, List.mem_filter] at hs
    obtain ⟨hmem, hflag⟩ := hs
    rw [add_zone_boundaries_eq, List.mem_append] at hmem
    rcases hmem with hv | hh
    · left
      rw [List.mem_flatMap] at hv
      obtain ⟨i, hi, hv⟩ := hv
      rw [List.mem_range] at hi
      rw [List.mem_flatMap] at hv
      obtain ⟨j, hj, hv⟩ := hv
      rw [List.mem_range] at hj
      by_cases hc : lab labels i j ≠ lab labels i (j + 1)
      · rw [if_pos hc, List.mem_append] at hv
        rcases hv with h | h
        · exfalso
          cases halo with
          | false => simp at h
          | true =>
            simp at h
            rw [h] at hflag
            simp at hflag
        · rw [List.mem_singleton] at h
          exact ⟨i, j, hi, by omega, hc, h⟩
      · rw [if_neg hc] at hv
        simp at hv
    · right
      rw [List.mem_flatMap] at hh
      obtain ⟨i, hi, hh⟩ := hh
      rw [List.mem_range] at hi
      rw [List.mem_flatMap] at hh
      obtain ⟨j, hj, hh⟩ := hh
      rw [List.mem_range] at hj
      by_cases hc : lab labels i j ≠ lab labels (i + 1) j
      · rw [if_pos hc, List.mem_append] at hh
        rcases hh with h | h
        · exfalso
          cases halo with
          | false => simp at h
          | true =>
            simp at h
            rw [h] at hflag
            simp at hflag
        · rw [List.mem_singleton] at h
          exact ⟨i, j, by omega, hj, hc, h⟩
      · rw [if_neg hc] at hh
        simp at hh
  · -- completeness for vertical segments
    intro i j hi hj hc
    rw [tracer_main, List.mem_filter]
    refine ⟨?_, rfl⟩
    rw [add_zone_boundaries_eq, List.mem_append]
    left
    rw [List.mem_flatMap]
    refine ⟨i, List.mem_range.mpr hi, ?_⟩
    rw [List.mem_flatMap]
    refine ⟨j, List.mem_range.mpr (by omega), ?_⟩
    rw [if_pos hc, List.mem_append]
    right
    exact List.mem_singleton.mpr rfl
  · -- completeness for horizontal segments
    intro i j hi hj hc
    rw [tracer_main, List.mem_filter]
    refine ⟨?_, rfl⟩
    rw [add_zone_boundaries_eq, List.mem_append]
    right
    rw [List.mem_flatMap]
    refine ⟨i, List.mem_range.mpr (by omega), ?_⟩
    rw [List.mem_flatMap]
    refine ⟨j, List.mem_range.mpr hj, ?_⟩
    rw [if_pos hc, List.mem_append]
    right
    exact List.mem_singleton.mpr rfl
  · -- no duplicates among all emitted traces, hence among the main segments
    have hnodupAll : (add_zone_boundaries_from_labels X Y labels halo).Nodup := by
      rw [add_zone_boundaries_eq, List.nodup_append]
      refine ⟨?_, ?_, ?_⟩
      · apply nodup_flatMap_flatMap
        · intro i j
          by_cases hc : lab labels i j ≠ lab labels i (j + 1)
          · rw [if_pos hc]
            cases halo with
            | false => simp
            | true =>
              rw [if_pos rfl, List.singleton_append]
              refine List.nodup_cons.mpr ⟨?_, List.nodup_singleton _⟩
              intro hmem
              rw [List.mem_singleton] at hmem
              have hcontra := congrArg Seg.is_halo hmem
              simp [vseg] at hcontra
          · rw [if_neg hc]
            exact List.nodup_nil
        · intro i j j' hj hj' hjj' s hsj hsj'
          obtain ⟨hx0, -, -, -⟩ := hv_coords i j s hsj
          obtain ⟨hx0', -, -, -⟩ := hv_coords i j' s hsj'
          have heq : (edges_of (X.headD []) (bin_size (X.headD []))).getD (j + 1) 0 =
              (edges_of (X.headD []) (bin_size (X.headD []))).getD (j' + 1) 0 :=
            hx0.symm.trans hx0'
          rcases hjj'.lt_or_lt with h | h
          · exact absurd heq (ne_of_lt (hxe_lt (j + 1) (j' + 1) (by omega) (by omega)))
          · exact absurd heq (ne_of_gt (hxe_lt (j' + 1) (j + 1) (by omega) (by omega)))
        · intro i i' j j' hi hi' hii' s hsi hsi'
          obtain ⟨-, -, hy0, -⟩ := hv_coords i j s hsi
          obtain ⟨-, -, hy0', -⟩ := hv_coords i' j' s hsi'
          have heq : (edges_of (Y.map fun row => row.headD 0)
                (bin_size (Y.map fun row => row.headD 0))).getD i 0 =
              (edges_of (Y.map fun row => row.headD 0)
                (bin_size (Y.map fun row => row.headD 0))).getD i' 0 :=
            hy0.symm.trans hy0'
          rcases hii'.lt_or_lt with h | h
          · exact absurd heq (ne_of_lt (hye_lt i i' h (by omega)))
          · exact absurd heq (ne_of_gt (hye_lt i' i h (by omega)))
      · apply nodup_flatMap_flatMap
        · intro i j
          by_cases hc : lab labels i j ≠ lab labels (i + 1) j
          · rw [if_pos hc]
            cases halo with
            | false => simp
            | true =>
              rw [if_pos rfl, List.singleton_append]
              refine List.nodup_cons.mpr ⟨?_, List.nodup_singleton _⟩
              intro hmem
              rw [List.mem_singleton] at hmem
              have hcontra := congrArg Seg.is_halo hmem
              simp [hseg] at hcontra
          · rw [if_neg hc]
            exact List.nodup_nil
        · intro i j j' hj hj' hjj' s hsj hsj'
          obtain ⟨hx0, -, -, -⟩ := hh_coords i j s hsj
          obtain ⟨hx0', -, -, -⟩ := hh_coords i j' s hsj'
          have heq : (edges_of (X.headD []) (bin_size (X.headD []))).getD j 0 =
              (edges_of (X.headD []) (bin_size (X.headD []))).getD j' 0 :=
            hx0.symm.trans hx0'
          rcases hjj'.lt_or_lt with h | h
          · exact absurd heq (ne_of_lt (hxe_lt j j' h (by omega)))
          · exact absurd heq (ne_of_gt (hxe_lt j' j h (by omega)))
        · intro i i' j j' hi hi' hii' s hsi hsi'
          obtain ⟨-, -, hy0, -⟩ := hh_coords i j s hsi
          obtain ⟨-, -, hy0', -⟩ := hh_coords i' j' s hsi'
          have heq : (edges_of (Y.map fun row => row.headD 0)
                (bin_size (Y.map fun row => row.headD 0))).getD (i + 1) 0 =
              (edges_of (Y.map fun row => row.headD 0)
                (bin_size (Y.map fun row => row.headD 0))).getD (i' + 1) 0 :=
            hy0.symm.trans hy0'
          rcases hii'.lt_or_lt with h | h
          · exact absurd heq (ne_of_lt (hye_lt (i + 1) (i' + 1) (by omega) (by omega)))
          · exact absurd heq (ne_of_gt (hye_lt (i' + 1) (i + 1) (by omega) (by omega)))
      · intro s hsv hsh
        rw [List.mem_flatMap] at hsv hsh
        obtain ⟨i, hi, hsv⟩ := hsv
        rw [List.mem_range] at hi
        rw [List.mem_flatMap] at hsv
        obtain ⟨j, hj, hsv⟩ := hsv
        rw [List.mem_range] at hj
        obtain ⟨i', hi', hsh⟩ := hsh
        rw [List.mem_range] at hi'
        rw [List.mem_flatMap] at hsh
        obtain ⟨j', hj', hsh⟩ := hsh
        rw [List.mem_range] at hj'
        obtain ⟨hx0, hx1, -, -⟩ := hv_coords i j s hsv
        obtain ⟨hx0', hx1', -, -⟩ := hh_coords i' j' s hsh
        have hvx : s.x0 = s.x1 := hx0.trans hx1.symm
        have hhx : s.x0 < s.x1 := by
          rw [hx0', hx1']
          exact hxe_lt j' (j' + 1) (by omega) (by omega)
        exact absurd hvx (ne_of_lt hhx)
    exact List.Nodup.filter _ hnodupAll

/-- Concrete `X` grid used by the boundary-tracer witness. -/
def Xw : List (List ℚ) := [[1, 3], [1, 3]]

/-- Concrete `Y` grid used by the boundary-tracer witness. -/
def Yw : List (List ℚ) := [[0, 0], [2, 2]]

/-- Concrete label grid used by the boundary-tracer witness. -/
def labelsW : List (List String) := [["a", "b"], ["b", "b"]]

/-- Witness for C5 on a concrete 2×2 grid with two zone labels. -/
theorem add_zone_boundaries_iff_labels_differ_w :
    List.Chain' (· < ·) (Xw.headD []) ∧
    List.Chain' (· < ·) (Yw.map fun row => row.headD 0) ∧
    (labelsW.headD []).length = (Xw.headD []).length ∧
    labelsW.length = Yw.length ∧
    ((∀ s ∈ tracer_main Xw Yw labelsW true,
      (∃ i j, i < labelsW.length ∧ j + 1 < (labelsW.headD []).length ∧
        lab labelsW i j ≠ lab labelsW i (j + 1) ∧ s = vseg Xw Yw i j) ∨
      (∃ i j, i + 1 < labelsW.length ∧ j < (labelsW.headD []).length ∧
        lab labelsW i j ≠ lab labelsW (i + 1) j ∧ s = hseg Xw Yw i j)) ∧
    (∀ i j, i < labelsW.length → j + 1 < (labelsW.headD []).length →
      lab labelsW i j ≠ lab labelsW i (j + 1) →
      vseg Xw Yw i j ∈ tracer_main Xw Yw labelsW true) ∧
    (∀ i j, i + 1 < labelsW.length → j < (labelsW.headD []).length →
      lab labelsW i j ≠ lab labelsW (i + 1) j →
      hseg Xw Yw i j ∈ tracer_main Xw Yw labelsW true) ∧
    (tracer_main Xw Yw labelsW true).Nodup) := by
  have h1 : List.Chain' (· < ·) (Xw.headD []) := by
    show List.Chain' (· < ·) [(1 : ℚ), 3]
    refine List.chain'_cons.mpr ⟨by norm_num, List.chain'_singleton _⟩
  have h2 : List.Chain' (· < ·) (Yw.map fun row => row.headD 0) := by
    show List.Chain' (· < ·) [(0 : ℚ), 2]
    refine List.chain'_cons.mpr ⟨by norm_num, List.chain'_singleton _⟩
  exact ⟨h1, h2, rfl, rfl,
    add_zone_boundaries_iff_labels_differ Xw Yw labelsW true h1 h2 rfl rfl⟩

end NbaShotViz
